import Mathlib

/-!
Shallow embedding of the QHack variational-language-model notebook
(`Final_notebook.ipynb`, two near-identical copies).  The notebook's own
Python/NumPy glue is translated directly into Lean definitions; behaviour
of the external libraries (PennyLane device execution, scikit-learn PCA,
the seeded NumPy random stream, the FastText embedding data) enters only
through explicit parameters or through small definitions documented at
their declaration site.  Machine floats are idealised as rationals for
data and as reals where a Euclidean norm is taken.
-/

namespace QHack

/-- Python exception classes that the notebook's code can surface:
the PennyLane `DeviceError`, the NumPy/py-list `TypeError`, and the
`AssertionError` of the bare `assert` statement. -/
inductive PyError : Type
  | deviceError
  | typeError
  | assertionError
  deriving DecidableEq

/-! ## Preprocessing (cell 5, identical in both copies)

`config.py` and the `newsgroup/*` data files are not part of the snapshot,
so the configuration values (`num_words`, `qbits_per_word`, `num_layers`)
and the loaded arrays (`embeddings`, `sentences`, `vocab`) appear as
parameters of the definitions below. -/

/-- `max_length = num_words` (cell 5). -/
def max_length (num_words : Nat) : Nat := num_words

/-- `n_dim = 2**qbits_per_word` (cell 5). -/
def n_dim (qbits_per_word : Nat) : Nat := 2 ^ qbits_per_word

/-- Modelled from the spec: `np.random.randint(0, num_words, size=...)`
(after `np.random.seed(143)`) draws integers uniformly from
`[0, num_words)`; the seeded NumPy stream is modelled by an abstract
stream `rng` reduced modulo `num_words`.  `missing_word rng num_words i`
is `missing_word[i]`, the masked position of sentence `i` (cell 5). -/
def missing_word (rng : Nat → Nat) (num_words : Nat) (i : Nat) : Nat :=
  rng i % num_words

/-- Row `i` of `all_indices` (cell 5): the row starts as
`np.arange(max_length)` and the loop `all_indices[i, missing_word[i]] =
max_length` overwrites the entry at the masked position. -/
def all_indices_row (rng : Nat → Nat) (num_words : Nat) (i : Nat) : List Nat :=
  (List.range (max_length num_words)).set (missing_word rng num_words i)
    (max_length num_words)

/-- Sum of squared entries of a data row (the float data idealised in `ℚ`). -/
def sumSq {n : Nat} (v : Fin n → ℚ) : ℚ := ∑ j, v j ^ 2

/-- `np.linalg.norm` of a rational data row: the Euclidean norm, a real. -/
noncomputable def rowNorm {n : Nat} (v : Fin n → ℚ) : ℝ :=
  Real.sqrt ((sumSq v : ℚ) : ℝ)

/-- Euclidean norm of a real-valued row (used for the normalised rows). -/
noncomputable def rowNormR {n : Nat} (v : Fin n → ℝ) : ℝ :=
  Real.sqrt (∑ j, v j ^ 2)

/-- The Euclidean norm of a data row is positive iff its sum of squares is:
justifies writing the NumPy mask `norms > 0` as the decidable test
`0 < sumSq`. -/
theorem rowNorm_pos_iff {n : Nat} (v : Fin n → ℚ) :
    0 < rowNorm v ↔ 0 < sumSq v := by
  have hnn : (0 : ℚ) ≤ sumSq v := by
    refine Finset.sum_nonneg ?_
    intro j _
    positivity
  constructor
  · intro h
    by_contra hle
    push_neg at hle
    have h0 : sumSq v = 0 := le_antisymm hle hnn
    rw [rowNorm, h0] at h
    simp at h
  · intro h
    have : (0 : ℝ) < ((sumSq v : ℚ) : ℝ) := by exact_mod_cast h
    exact Real.sqrt_pos.mpr this

/-- Row `i` of `embeddings_reduced` (cell 5): the array starts as
`np.zeros((len, n_dim))` and the masked assignment
`embeddings_reduced[norms>0] = pca.fit_transform(embeddings[norms>0])`
fills the rows whose original embedding has positive norm with the PCA
output.  The PCA transform is external (scikit-learn) and is modelled by
the abstract row function `pcaRow`; the mask `norms > 0` is expressed by
the equivalent decidable test `0 < sumSq` (see `rowNorm_pos_iff`). -/
def embeddings_reduced {D n : Nat} (origEmb : Nat → Fin D → ℚ)
    (pcaRow : Nat → Fin n → ℚ) (i : Nat) : Fin n → ℚ :=
  if 0 < sumSq (origEmb i) then pcaRow i else 0

/-- Row `i` of `norms_reduced` (cell 5):
`np.linalg.norm(embeddings_reduced, axis=1)`. -/
noncomputable def norms_reduced {D n : Nat} (origEmb : Nat → Fin D → ℚ)
    (pcaRow : Nat → Fin n → ℚ) (i : Nat) : ℝ :=
  rowNorm (embeddings_reduced origEmb pcaRow i)

/-- Row `i` of `embeddings_reduced_norm` (cell 5): the array starts as
`np.zeros_like(embeddings_reduced)` and the masked assignment divides each
row with positive original norm entrywise by its `norms_reduced` entry
(`np.repeat(norms_reduced[norms>0], n_dim, axis=1)` broadcasts the scalar
norm across the row). -/
noncomputable def embeddings_reduced_norm {D n : Nat} (origEmb : Nat → Fin D → ℚ)
    (pcaRow : Nat → Fin n → ℚ) (i : Nat) : Fin n → ℝ :=
  if 0 < sumSq (origEmb i) then
    fun j => ((embeddings_reduced origEmb pcaRow i j : ℚ) : ℝ) /
      norms_reduced origEmb pcaRow i
  else 0

/-! ## The qnode and the cost function (cell 12, first copy)

`utils.encode_words` and `utils.circuit_final` live in `utils.py`, which is
not part of the snapshot, and the quantum state evolution itself happens in
the external simulator; both enter through an abstract device semantics. -/

/-- Abstract semantics of a PennyLane device executing the notebook's
qnode, over parameter type `P`: a state type `S` with initial state `init`,
the state transformers of `utils.encode_words` and `utils.circuit_final`
(signatures as called in cell 12), the `PauliZ` expectation value read off
the last wire, and the NumPy slices `parameters[:,0,i]` (`slice0`) and
`parameters[:,1::,i]` (`slice1`) used to build the per-layer parameter
pairs. -/
structure DeviceSem (P : Type) where
  S : Type
  init : S
  encode_words : List (List ℚ) → List Nat → S → S
  circuit_final : List (List ℚ × List (List ℚ)) → List Nat → Nat → Nat → S → S
  expvalZ_last : S → ℚ
  slice0 : P → Nat → List ℚ
  slice1 : P → Nat → List (List ℚ)

/-- `n_wires = qbits_per_word * (max_length+1) + 1` (cell 12). -/
def n_wires (qbits_per_word num_words : Nat) : Nat :=
  qbits_per_word * (max_length num_words + 1) + 1

/-- The qnode `compute_overlap_words(parameters, embeddings, indices,
target_word)` (cell 12, first copy): queue `encode_words(embeddings,
indices)`, build `params = [(parameters[:,0,i], parameters[:,1::,i]) for i
in range(num_layers)]`, queue `circuit_final(params, wires, num_layers,
target_word)`, and return `qml.expval(qml.PauliZ(wires[-1]))`. -/
def compute_overlap_words {P : Type} (Dev : DeviceSem P) (num_layers : Nat)
    (wires : List Nat) (parameters : P) (embeddings : List (List ℚ))
    (indices : List Nat) (target_word : Nat) : ℚ :=
  Dev.expvalZ_last (Dev.circuit_final
    ((List.range num_layers).map
      (fun i => (Dev.slice0 parameters i, Dev.slice1 parameters i)))
    wires num_layers target_word
    (Dev.encode_words embeddings indices Dev.init))

/-- The accumulation loop of `cost` (cell 12): `for i,sentence in
enumerate(sentences): cost += ...`, with `i` the running enumeration
index. -/
def cost_loop (f : Nat → List Nat → ℚ) : Nat → List (List Nat) → ℚ → ℚ
  | _, [], acc => acc
  | i, sentence :: rest, acc => cost_loop f (i + 1) rest (acc + f i sentence)

/-- `cost(parameters, sentences, missing_words)` (cell 12, first copy):
sums, over the enumerated sentences, the qnode applied to
`embeddings_reduced_norm[sentence]`, `all_indices[i]` and
`missing_words[i]`.  The preprocessed rows enter as `ern` (one `ℚ`-row per
vocabulary id) and `all_indices` as one row of indices per sentence
position. -/
def cost {P : Type} (Dev : DeviceSem P) (num_layers : Nat) (wires : List Nat)
    (ern : Nat → List ℚ) (all_indices : Nat → List Nat) (parameters : P)
    (sentences : List (List Nat)) (missing_words : List Nat) : ℚ :=
  cost_loop (fun i sentence =>
    compute_overlap_words Dev num_layers wires parameters (sentence.map ern)
      (all_indices i) (missing_words.getD i 0)) 0 sentences 0

/-! ## The query function (cell 16, first copy) -/

/-- Indexing a plain Python `list` with a one-dimensional NumPy integer
array raises `TypeError` (CPython/NumPy: only integer scalar arrays can be
converted to a scalar index).  Both arrays that reach this subscript in the
notebook — `np.arange(len(word_indices))` from the `look_in is None`
branch and the `np.random.randint(..., size=10)` array the query cell
passes — are one-dimensional integer arrays. -/
def pyList_index_ndarray (_xs : List Nat) (_idx : List Nat) :
    Except PyError (List Nat) :=
  .error PyError.typeError

/-- `get_most_probable_word(sentence, position, look_in=None)` (cell 16,
first copy).  The bare `assert position<num_words` comes first; a `None`
`look_in` is replaced by `np.arange(len(word_indices))`; `indices` collects
every position except `position` and then `num_words`; the candidate loop
iterates over `word_indices[look_in]` — a plain list subscripted with a
NumPy array — and would append one circuit probability per candidate.
`ov` is the trained qnode (`compute_overlap_words` under the selected
device's semantics). -/
def get_most_probable_word {P : Type}
    (ov : P → List (List ℚ) → List Nat → Nat → ℚ)
    (num_words : Nat) (ern : Nat → List ℚ) (word_indices : List Nat)
    (parameters : P) (sentence : List Nat) (position : Nat)
    (look_in : Option (List Nat)) : Except PyError (List ℚ) :=
  if position < num_words then
    let look_in2 : List Nat :=
      match look_in with
      | none => List.range word_indices.length
      | some arr => arr
    let indices : List Nat :=
      ((List.range num_words).filter (fun i => i != position)) ++ [num_words]
    let embeddings_input : List (List ℚ) := sentence.map ern
    match pyList_index_ndarray word_indices look_in2 with
    | .error e => .error e
    | .ok cands =>
      .ok (cands.map (fun index =>
        ov parameters (embeddings_input ++ [ern index]) indices position))
  else
    .error PyError.assertionError

/-! ## The second copy (cells 12 and 16 of the second notebook copy)

The two concatenated copies differ only in the device-selection lines of
cell 12: the first copy binds `dev = dev_local` (the local `default.qubit`
simulator), the second `dev = dev_remote` (the remote Braket SV1 device).
The definitions below are the second copy's text; the device enters only
through the abstract semantics argument. -/

/-- The qnode `compute_overlap_words` of the second copy (identical text,
device bound to the remote Braket SV1 simulator). -/
def compute_overlap_words_copy2 {P : Type} (Dev : DeviceSem P)
    (num_layers : Nat) (wires : List Nat) (parameters : P)
    (embeddings : List (List ℚ)) (indices : List Nat) (target_word : Nat) : ℚ :=
  Dev.expvalZ_last (Dev.circuit_final
    ((List.range num_layers).map
      (fun i => (Dev.slice0 parameters i, Dev.slice1 parameters i)))
    wires num_layers target_word
    (Dev.encode_words embeddings indices Dev.init))

/-- The `cost` function of the second copy (identical text). -/
def cost_copy2 {P : Type} (Dev : DeviceSem P) (num_layers : Nat)
    (wires : List Nat) (ern : Nat → List ℚ) (all_indices : Nat → List Nat)
    (parameters : P) (sentences : List (List Nat)) (missing_words : List Nat) :
    ℚ :=
  cost_loop (fun i sentence =>
    compute_overlap_words_copy2 Dev num_layers wires parameters
      (sentence.map ern) (all_indices i) (missing_words.getD i 0))
    0 sentences 0

/-- `get_most_probable_word` of the second copy (identical text). -/
def get_most_probable_word_copy2 {P : Type}
    (ov : P → List (List ℚ) → List Nat → Nat → ℚ)
    (num_words : Nat) (ern : Nat → List ℚ) (word_indices : List Nat)
    (parameters : P) (sentence : List Nat) (position : Nat)
    (look_in : Option (List Nat)) : Except PyError (List ℚ) :=
  if position < num_words then
    let look_in2 : List Nat :=
      match look_in with
      | none => List.range word_indices.length
      | some arr => arr
    let indices : List Nat :=
      ((List.range num_words).filter (fun i => i != position)) ++ [num_words]
    let embeddings_input : List (List ℚ) := sentence.map ern
    match pyList_index_ndarray word_indices look_in2 with
    | .error e => .error e
    | .ok cands =>
      .ok (cands.map (fun index =>
        ov parameters (embeddings_input ++ [ern index]) indices position))
  else
    .error PyError.assertionError

/-! ## The training loop (cell 14, identical in both copies) -/

/-- `batch_size = 10` (cell 14). -/
def batch_size : Nat := 10

/-- `epochs = 2` (cell 14). -/
def epochs : Nat := 2

/-- `N_batches = len(sentences_truncated)//batch_size` (cell 14). -/
def N_batches (nsent : Nat) : Nat := nsent / batch_size

/-- `batch = np.arange(i*batch_size, (i+1)*batch_size)` (cell 14). -/
def batch_indices (i : Nat) : List Nat :=
  List.range' (i * batch_size) batch_size

/-- The sequence of batch numbers visited by the nested loop
`for epoch in range(epochs): for i in range(N_batches)` (cell 14). -/
def step_schedule (nsent : Nat) : List Nat :=
  (List.range epochs).flatMap (fun _ => List.range (N_batches nsent))

/-- Runs the scheduled optimizer steps in order.  Each successful step
rebinds `parameters`; an exception aborts all remaining iterations (the
loop body contains no `try`/`except`), leaving the parameters produced by
the completed steps and surfacing the error.  The `Nat` component counts
completed parameter updates. -/
def run_steps_count {P E : Type} (stepE : Nat → P → Except E P) :
    List Nat → P → Nat → P × Nat × Option E
  | [], p, c => (p, c, none)
  | k :: ks, p, c =>
    match stepE k p with
    | .ok p2 => run_steps_count stepE ks p2 (c + 1)
    | .error e => (p, c, some e)

/-- The accumulation loop of `cost` when each qnode call may raise: the
first exception aborts the loop and propagates (the body has no
`try`/`except`). -/
def costE_loop {E : Type} (f : Nat → List Nat → Except E ℚ) :
    Nat → List (List Nat) → ℚ → Except E ℚ
  | _, [], acc => .ok acc
  | i, sentence :: rest, acc =>
    match f i sentence with
    | .ok v => costE_loop f (i + 1) rest (acc + v)
    | .error e => .error e

/-- `cost` (cell 12) in the exception-aware semantics: `ovE` is the qnode
call, which may raise inside the device execution. -/
def costE {P E : Type} (ovE : P → List (List ℚ) → List Nat → Nat → Except E ℚ)
    (ern : Nat → List ℚ) (all_indices : Nat → List Nat) (parameters : P)
    (sentences : List (List Nat)) (missing_words : List Nat) : Except E ℚ :=
  costE_loop (fun i sentence =>
    ovE parameters (sentence.map ern) (all_indices i) (missing_words.getD i 0))
    0 sentences 0

/-- `opt.step(cost_batch, parameters)` (cell 14): PennyLane's Adam step
first runs the autograd forward pass, which executes every tape of the
cost function; only if that returns does it apply the optimizer update
(the update rule itself is external, modelled by `upd`). -/
def opt_stepE {P E : Type} (costFn : P → Except E ℚ) (upd : P → P) (p : P) :
    Except E P :=
  match costFn p with
  | .ok _ => .ok (upd p)
  | .error e => .error e

/-- The full run of the training loop (cell 14): all scheduled optimizer
steps starting from the initial random parameters. -/
def training_loopE {P E : Type} (stepE : Nat → P → Except E P) (nsent : Nat)
    (p0 : P) : P × Nat × Option E :=
  run_steps_count stepE (step_schedule nsent) p0 0

/-! ## The committed `default.qubit` execution (cell 12 device selection,
cell 14 loop, first copy) -/

/-- An operation on the PennyLane tape, abstracted to what the
`default.qubit` apply-check inspects: whether it is a `QubitStateVector`
state preparation or any other gate. -/
inductive Op : Type
  | qubitStateVector
  | gate
  deriving DecidableEq

/-- The apply-loop check of `pennylane/devices/default_qubit.py`, preserved
in the committed traceback: applying a `QubitStateVector` after any other
operation has already been applied raises
`DeviceError: Operation QubitStateVector cannot be used after other
Operations have already been applied on a default.qubit.autograd device.`
The boolean flag records whether an operation has been applied yet. -/
def applyOps : List Op → Bool → Except PyError Unit
  | [], _ => .ok ()
  | o :: rest, applied =>
    if applied && (o == Op.qubitStateVector) then .error PyError.deviceError
    else applyOps rest true

/-- Modelled from the spec: `utils.encode_words` (in `utils.py`, not part
of the snapshot) amplitude-encodes each word of the sentence into its own
qubit register, i.e. queues one `QubitStateVector` state preparation per
row of `embeddings`. -/
def encode_words_ops (embeddings : List (List ℚ)) : List Op :=
  embeddings.map (fun _ => Op.qubitStateVector)

/-- Executing the qnode's tape on `default.qubit`: the device applies the
queued operations (the state preparations from `encode_words` followed by
the ansatz gates of `circuit_final`) and, only if that succeeds, returns
the expectation value. -/
def tape_executeE (embeddings : List (List ℚ)) (ansatz_ops : List Op)
    (result : ℚ) : Except PyError ℚ :=
  match applyOps (encode_words_ops embeddings ++ ansatz_ops) false with
  | .ok _ => .ok result
  | .error e => .error e

/-- The qnode call under `default.qubit` execution: `ansatz` gives the
gates `circuit_final` queues and `value` the expectation value the
simulator would return if application succeeded. -/
def overlap_defaultqubitE {P : Type}
    (ansatz : P → List Nat → Nat → List Op)
    (value : P → List (List ℚ) → List Nat → Nat → ℚ)
    (p : P) (embeddings : List (List ℚ)) (indices : List Nat)
    (target_word : Nat) : Except PyError ℚ :=
  tape_executeE embeddings (ansatz p indices target_word)
    (value p embeddings indices target_word)

/-- The committed training run of the first copy (cell 14 with cell 12's
`dev = dev_local`): each step `i` evaluates the cost of
`sentences_truncated[batch]` and `missing_word[batch]` through the Adam
step's forward pass, executing one `default.qubit` tape per sentence.
`strunc` gives the rows of `sentences_truncated` and `mwf` the entries of
`missing_word`. -/
def committed_training_run {P : Type}
    (ansatz : P → List Nat → Nat → List Op)
    (value : P → List (List ℚ) → List Nat → Nat → ℚ)
    (ern : Nat → List ℚ) (all_indices : Nat → List Nat)
    (strunc : Nat → List Nat) (mwf : Nat → Nat) (upd : P → P)
    (nsent : Nat) (p0 : P) : P × Nat × Option PyError :=
  training_loopE (fun i p =>
    opt_stepE (fun q =>
      costE (overlap_defaultqubitE ansatz value) ern all_indices q
        ((batch_indices i).map strunc) ((batch_indices i).map mwf)) upd p)
    nsent p0

/-! ## Helper lemmas -/

/-- A sum of squares of rational entries is nonnegative. -/
theorem sumSq_nonneg {n : Nat} (v : Fin n → ℚ) : 0 ≤ sumSq v :=
  Finset.sum_nonneg (fun j _ => by positivity)

/-- A sum of squares vanishes exactly on the zero row. -/
theorem sumSq_eq_zero_iff {n : Nat} (v : Fin n → ℚ) : sumSq v = 0 ↔ v = 0 := by
  constructor
  · intro h
    funext j
    have hj := (Finset.sum_eq_zero_iff_of_nonneg
      (fun j _ => sq_nonneg (v j))).1 h j (Finset.mem_univ j)
    exact pow_eq_zero_iff two_ne_zero |>.mp hj
  · intro h
    rw [h]
    simp [sumSq]

/-! ## Claim theorems: preprocessing -/

/-- Claim C7: after preprocessing, for every sentence index `i` the masking
data is well-formed: `missing_word[i]` lies in `[0, num_words)`, row `i` of
`all_indices` has `max_length` entries and equals `0, 1, ..., max_length-1`
except at the single position `missing_word[i]`, where its value is
`max_length`; hence exactly one position per sentence is marked masked. -/
theorem masking_data_wellformed (rng : Nat → Nat) (num_words : Nat) (i : Nat)
    (h : 0 < num_words) :
    missing_word rng num_words i < num_words ∧
    (all_indices_row rng num_words i).length = max_length num_words ∧
    (∀ j, j < max_length num_words →
      (all_indices_row rng num_words i).getD j 0 =
        if j = missing_word rng num_words i then max_length num_words else j) ∧
    (all_indices_row rng num_words i).count (max_length num_words) = 1 := by
  have hm : missing_word rng num_words i < num_words := Nat.mod_lt _ h
  have hmlen : missing_word rng num_words i <
      (List.range (max_length num_words)).length := by
    simpa [max_length] using hm
  refine ⟨hm, ?_, ?_, ?_⟩
  · simp [all_indices_row]
  · intro j hj
    by_cases hje : j = missing_word rng num_words i
    · subst hje
      simp [all_indices_row, List.getD_eq_getElem?_getD,
        List.getElem?_set_self hmlen]
    · simp [all_indices_row, List.getD_eq_getElem?_getD,
        List.getElem?_set_ne (Ne.symm hje), List.getElem?_range hj, hje]
  · rw [all_indices_row, List.set_eq_take_cons_drop _ hmlen]
    have htake : (max_length num_words) ∉
        (List.range (max_length num_words)).take (missing_word rng num_words i) := by
      intro hmem
      have := List.mem_range.1 (List.mem_of_mem_take hmem)
      omega
    have hdrop : (max_length num_words) ∉
        (List.range (max_length num_words)).drop (missing_word rng num_words i + 1) := by
      intro hmem
      have := List.mem_range.1 (List.mem_of_mem_drop hmem)
      omega
    rw [List.count_append, List.count_cons_self,
      List.count_eq_zero_of_not_mem htake, List.count_eq_zero_of_not_mem hdrop]

/-- Claim C6: every vocabulary row whose original embedding has positive
Euclidean norm gets a unit-norm row of `embeddings_reduced_norm` of
dimension `2^qbits_per_word` (given that its PCA-reduced row is nonzero),
while every row whose original embedding has zero norm remains exactly the
zero vector. -/
theorem embeddings_reduced_norm_rows {D q : Nat}
    (origEmb : Nat → Fin D → ℚ) (pcaRow : Nat → Fin (n_dim q) → ℚ) (i : Nat) :
    (0 < rowNorm (origEmb i) →
      embeddings_reduced origEmb pcaRow i ≠ 0 →
      rowNormR (embeddings_reduced_norm origEmb pcaRow i) = 1) ∧
    (rowNorm (origEmb i) = 0 →
      embeddings_reduced_norm origEmb pcaRow i = 0) ∧
    n_dim q = 2 ^ q := by
  refine ⟨?_, ?_, rfl⟩
  · intro hpos hne
    have hs : 0 < sumSq (origEmb i) := (rowNorm_pos_iff _).1 hpos
    have hS : 0 < sumSq (embeddings_reduced origEmb pcaRow i) :=
      lt_of_le_of_ne (sumSq_nonneg _)
        (fun hz => hne ((sumSq_eq_zero_iff _).1 hz.symm))
    have hSne : ((sumSq (embeddings_reduced origEmb pcaRow i) : ℚ) : ℝ) ≠ 0 := by
      exact_mod_cast ne_of_gt hS
    have hnr2 : (norms_reduced origEmb pcaRow i) ^ 2 =
        ((sumSq (embeddings_reduced origEmb pcaRow i) : ℚ) : ℝ) := by
      rw [norms_reduced, rowNorm]
      exact Real.sq_sqrt (by exact_mod_cast sumSq_nonneg _)
    have hsum : (∑ j, (((embeddings_reduced origEmb pcaRow i j : ℚ) : ℝ) /
        norms_reduced origEmb pcaRow i) ^ 2) = 1 := by
      have hc : (∑ j, (((embeddings_reduced origEmb pcaRow i j : ℚ) : ℝ)) ^ 2) =
          ((sumSq (embeddings_reduced origEmb pcaRow i) : ℚ) : ℝ) := by
        rw [sumSq]
        push_cast
        rfl
      calc (∑ j, (((embeddings_reduced origEmb pcaRow i j : ℚ) : ℝ) /
            norms_reduced origEmb pcaRow i) ^ 2)
          = (∑ j, (((embeddings_reduced origEmb pcaRow i j : ℚ) : ℝ)) ^ 2) /
            (norms_reduced origEmb pcaRow i) ^ 2 := by
            rw [Finset.sum_div]
            exact Finset.sum_congr rfl (fun j _ => div_pow _ _ _)
        _ = 1 := by
            rw [hc, hnr2, div_self hSne]
    rw [embeddings_reduced_norm, if_pos hs, rowNormR]
    simpa using (by rw [hsum] ; exact Real.sqrt_one :
      Real.sqrt (∑ j, (((embeddings_reduced origEmb pcaRow i j : ℚ) : ℝ) /
        norms_reduced origEmb pcaRow i) ^ 2) = 1)
  · intro h0
    have hmask : ¬ 0 < sumSq (origEmb i) := by
      intro hs
      have := (rowNorm_pos_iff (origEmb i)).2 hs
      rw [h0] at this
      exact lt_irrefl 0 this
    rw [embeddings_reduced_norm, if_neg hmask]

/-! ## Claim theorems: cost and the two copies -/

/-- The enumerated accumulation loop of `cost` computes an indexed sum. -/
theorem cost_loop_eq_sum (f : Nat → List Nat → ℚ) :
    ∀ (l : List (List Nat)) (i : Nat) (acc : ℚ),
      cost_loop f i l acc =
        acc + ∑ j ∈ Finset.range l.length, f (i + j) (l.getD j []) := by
  intro l
  induction l with
  | nil =>
    intro i acc
    simp [cost_loop]
  | cons s rest ih =>
    intro i acc
    rw [cost_loop, ih (i + 1) (acc + f i s), List.length_cons,
      Finset.sum_range_succ']
    have hshift : (∑ j ∈ Finset.range rest.length,
        f (i + (j + 1)) ((s :: rest).getD (j + 1) [])) =
        ∑ j ∈ Finset.range rest.length, f ((i + 1) + j) (rest.getD j []) := by
      refine Finset.sum_congr rfl (fun j _ => ?_)
      have : i + (j + 1) = (i + 1) + j := by omega
      rw [this, List.getD_cons_succ]
    rw [hshift, List.getD_cons_zero, add_assoc,
      add_comm (f i s)]
    simp

/-- Claim C2: `cost(parameters, sentences, missing_words)` equals the sum,
over the sentences in order, of `compute_overlap_words` applied to the
parameters, the reduced-normalized embeddings of that sentence's word ids,
the precomputed index row `all_indices[i]`, and that sentence's
missing-word position; and `compute_overlap_words` itself returns the
`PauliZ` expectation value on the last wire of the state after
`encode_words` and `circuit_final` have been applied. -/
theorem cost_is_sum_of_overlaps {P : Type} (Dev : DeviceSem P)
    (num_layers : Nat) (wires : List Nat) (ern : Nat → List ℚ)
    (all_indices : Nat → List Nat) (parameters : P)
    (sentences : List (List Nat)) (missing_words : List Nat) :
    cost Dev num_layers wires ern all_indices parameters sentences
        missing_words =
      (∑ i ∈ Finset.range sentences.length,
        compute_overlap_words Dev num_layers wires parameters
          ((sentences.getD i []).map ern) (all_indices i)
          (missing_words.getD i 0)) ∧
    ∀ (p : P) (embeddings : List (List ℚ)) (indices : List Nat)
      (target_word : Nat),
      compute_overlap_words Dev num_layers wires p embeddings indices
          target_word =
        Dev.expvalZ_last (Dev.circuit_final
          ((List.range num_layers).map
            (fun i => (Dev.slice0 p i, Dev.slice1 p i)))
          wires num_layers target_word
          (Dev.encode_words embeddings indices Dev.init)) := by
  constructor
  · rw [cost, cost_loop_eq_sum]
    simp
  · intro p embeddings indices target_word
    rfl

/-- Claim C5: the two concatenated notebook copies define the same
computation; their `compute_overlap_words`, `cost` and
`get_most_probable_word` differ only in which device the qnode is bound to,
so under identical device semantics (the same abstract `DeviceSem`, resp.
the same trained-qnode function `ov`) they are equal on every input. -/
theorem copies_define_same_functions {P : Type} (Dev : DeviceSem P)
    (num_layers : Nat) (wires : List Nat) (ern : Nat → List ℚ)
    (all_indices : Nat → List Nat) (parameters : P)
    (sentences : List (List Nat)) (missing_words : List Nat)
    (ov : P → List (List ℚ) → List Nat → Nat → ℚ) (num_words : Nat)
    (word_indices : List Nat) (sentence : List Nat) (position : Nat)
    (look_in : Option (List Nat)) (embeddings : List (List ℚ))
    (indices : List Nat) (target_word : Nat) :
    compute_overlap_words_copy2 Dev num_layers wires parameters embeddings
        indices target_word =
      compute_overlap_words Dev num_layers wires parameters embeddings
        indices target_word ∧
    cost_copy2 Dev num_layers wires ern all_indices parameters sentences
        missing_words =
      cost Dev num_layers wires ern all_indices parameters sentences
        missing_words ∧
    get_most_probable_word_copy2 ov num_words ern word_indices parameters
        sentence position look_in =
      get_most_probable_word ov num_words ern word_indices parameters
        sentence position look_in :=
  ⟨rfl, rfl, rfl⟩

/-! ## Claim theorems: the query function -/

/-- Claim C4: every call of `get_most_probable_word` whose `position`
argument passes the assertion raises `TypeError` before producing any
probability — for `look_in = None` (replaced by `np.arange`) as well as for
a passed integer array — because the candidate loop subscripts the plain
list `word_indices` with a NumPy array; the probability list is never
returned.  The result does not depend on the qnode `ov`, so no circuit runs. -/
theorem query_always_raises_typeerror {P : Type}
    (ov : P → List (List ℚ) → List Nat → Nat → ℚ)
    (num_words : Nat) (ern : Nat → List ℚ) (word_indices : List Nat)
    (parameters : P) (sentence : List Nat) (position : Nat)
    (look_in : Option (List Nat)) (h : position < num_words) :
    get_most_probable_word ov num_words ern word_indices parameters sentence
      position look_in = .error PyError.typeError := by
  cases look_in <;>
    simp [get_most_probable_word, pyList_index_ndarray, h]

/-- Claim C10: `get_most_probable_word` raises `AssertionError` iff its
`position` argument is not smaller than `num_words`; the assertion is the
first statement, so on failure no candidate probability is computed and no
circuit is executed (the result is the bare error, for every qnode `ov`). -/
theorem query_assertion_iff {P : Type}
    (ov : P → List (List ℚ) → List Nat → Nat → ℚ)
    (num_words : Nat) (ern : Nat → List ℚ) (word_indices : List Nat)
    (parameters : P) (sentence : List Nat) (position : Nat)
    (look_in : Option (List Nat)) :
    get_most_probable_word ov num_words ern word_indices parameters sentence
        position look_in = .error PyError.assertionError ↔
      num_words ≤ position := by
  by_cases h : position < num_words
  · cases look_in <;>
      simp [get_most_probable_word, pyList_index_ndarray, h]
  · refine iff_of_true ?_ (by omega)
    simp [get_most_probable_word, h]

/-- Claim C3 (the committed query cell): the notebook's own call
`get_most_probable_word(list_index, 4, look_in=look_in)` — a six-word
sentence with the mask removed, position `4 < num_words = 7`, and a
ten-entry `np.random.randint` candidate array — raises `TypeError` at
`word_indices[look_in]` instead of computing candidate probabilities and
printing the five most probable words.  Representative concrete values
stand in for the loaded vocabulary data; the result is the same for any. -/
theorem query_cell_raises_typeerror :
    @get_most_probable_word Unit (fun _ _ _ _ => 0) 7 (fun _ => [])
      (List.range 20) () [1, 2, 3, 4, 5, 6] 4
      (some [3, 1, 4, 1, 5, 9, 2, 6, 5, 3]) = .error PyError.typeError := rfl

/-! ## Claim theorems: the training loop -/

/-- Unfolding step: a successful head step recurses with the new
parameters and one more completed update. -/
theorem run_steps_count_head_ok {P E : Type} (stepE : Nat → P → Except E P)
    (a : Nat) (t : List Nat) (p p2 : P) (c : Nat) (h : stepE a p = .ok p2) :
    run_steps_count stepE (a :: t) p c =
      run_steps_count stepE t p2 (c + 1) := by
  rw [run_steps_count, h]

/-- Unfolding step: a failing head step stops the run at once. -/
theorem run_steps_count_head_error {P E : Type}
    (stepE : Nat → P → Except E P) (a : Nat) (t : List Nat) (p : P) (c : Nat)
    (e : E) (h : stepE a p = .error e) :
    run_steps_count stepE (a :: t) p c = (p, c, some e) := by
  rw [run_steps_count, h]

/-- A run in which every step returns performs one update per scheduled
step and surfaces no error. -/
theorem run_steps_count_all_ok {P E : Type} (upd : Nat → P → P) :
    ∀ (l : List Nat) (p : P) (c : Nat),
      run_steps_count (fun k q => (.ok (upd k q) : Except E P)) l p c =
        (l.foldl (fun q k => upd k q) p, c + l.length, none) := by
  intro l
  induction l with
  | nil =>
    intro p c
    simp [run_steps_count]
  | cons a t ih =>
    intro p c
    rw [run_steps_count_head_ok _ a t p (upd a p) c rfl, ih (upd a p) (c + 1),
      List.foldl_cons, List.length_cons]
    have : c + 1 + t.length = c + (t.length + 1) := by omega
    rw [this]

/-- The schedule visits batch numbers `0, ..., N_batches-1` once per
epoch. -/
theorem step_schedule_eq (nsent : Nat) :
    step_schedule nsent =
      List.range (N_batches nsent) ++ List.range (N_batches nsent) := by
  simp [step_schedule, epochs, List.range_succ]

/-- Claim C8: provided every optimizer step returns, the training loop
terminates after exactly `epochs * (len(sentences_truncated) //
batch_size)` Adam steps, with `epochs = 2` and `batch_size = 10`; the
`i`-th step of each epoch uses the index batch `[i*10, (i+1)*10)`, and the
trailing `len mod 10` sentences (indices at or above `N_batches * 10`)
appear in no batch of any step. -/
theorem training_loop_schedule_spec {P : Type} (upd : Nat → P → P) (p0 : P)
    (nsent : Nat) :
    (run_steps_count (fun k q => (.ok (upd k q) : Except PyError P))
        (step_schedule nsent) p0 0).2 =
      (epochs * N_batches nsent, none) ∧
    epochs = 2 ∧ batch_size = 10 ∧
    step_schedule nsent =
      List.range (N_batches nsent) ++ List.range (N_batches nsent) ∧
    (∀ i j, j ∈ batch_indices i ↔
      i * batch_size ≤ j ∧ j < (i + 1) * batch_size) ∧
    (∀ k, k ∈ step_schedule nsent → ∀ j, j ∈ batch_indices k →
      j < N_batches nsent * batch_size) := by
  refine ⟨?_, rfl, rfl, step_schedule_eq nsent, ?_, ?_⟩
  · rw [run_steps_count_all_ok]
    rw [step_schedule_eq]
    simp [epochs]
    ring
  · intro i j
    rw [batch_indices, List.mem_range'_1]
    constructor
    · intro hj
      refine ⟨hj.1, ?_⟩
      have := hj.2
      simp [batch_size] at this ⊢
      omega
    · intro hj
      refine ⟨hj.1, ?_⟩
      have := hj.2
      simp [batch_size] at this ⊢
      omega
  · intro k hk j hj
    have hkN : k < N_batches nsent := by
      rw [step_schedule_eq] at hk
      rcases List.mem_append.1 hk with hk1 | hk1 <;>
        exact List.mem_range.1 hk1
    have hjb := (List.mem_range'_1).1 hj
    simp [batch_size] at hjb ⊢
    omega

/-- An error in the qnode call of the first enumerated sentence aborts
`cost` with that error. -/
theorem costE_error_first {P E : Type}
    (ovE : P → List (List ℚ) → List Nat → Nat → Except E ℚ)
    (ern : Nat → List ℚ) (all_indices : Nat → List Nat) (parameters : P)
    (s : List Nat) (rest : List (List Nat)) (missing_words : List Nat)
    (e : E)
    (h : ovE parameters (s.map ern) (all_indices 0)
      (missing_words.getD 0 0) = .error e) :
    costE ovE ern all_indices parameters (s :: rest) missing_words =
      .error e := by
  rw [costE, costE_loop, h]

/-- The first failing step freezes the loop: steps `0..k-1` succeed, step
`k` raises, and the run returns the parameters after the `k` completed
updates together with the error. -/
theorem run_steps_count_error {P E : Type} (stepE : Nat → P → Except E P)
    (e : E) :
    ∀ (l : List Nat) (k c : Nat) (ps : Nat → P),
      k < l.length →
      (∀ j, j < k → stepE (l.getD j 0) (ps j) = .ok (ps (j + 1))) →
      stepE (l.getD k 0) (ps k) = .error e →
      run_steps_count stepE l (ps 0) c = (ps k, c + k, some e) := by
  intro l
  induction l with
  | nil =>
    intro k c ps hk
    simp at hk
  | cons a t ih =>
    intro k c ps hk hok herr
    cases k with
    | zero =>
      rw [List.getD_cons_zero] at herr
      rw [run_steps_count_head_error stepE a t (ps 0) c e herr, Nat.add_zero]
    | succ k2 =>
      have h0 : stepE a (ps 0) = .ok (ps 1) := by
        have := hok 0 (Nat.succ_pos k2)
        simpa using this
      have hrec : run_steps_count stepE t (ps 1) (c + 1) =
          (ps (k2 + 1), c + 1 + k2, some e) :=
        ih k2 (c + 1) (fun j => ps (j + 1)) (by simpa using hk)
          (fun j hj => by simpa using hok (j + 1) (by omega))
          (by simpa using herr)
      rw [run_steps_count_head_ok stepE a t (ps 0) (ps 1) c h0, hrec]
      have : c + 1 + k2 = c + (k2 + 1) := by omega
      rw [this]

/-- Claim C9: the notebook contains no exception handler: an error raised
by the qnode call of the first sentence propagates out of `cost`
unchanged, and an error raised at optimizer step `k` propagates out of the
whole loop unchanged, leaving the parameters exactly as bound by the `k`
already-completed steps. -/
theorem no_handler_error_propagates {P E : Type}
    (stepE : Nat → P → Except E P) (e : E) :
    (∀ (ovE : P → List (List ℚ) → List Nat → Nat → Except E ℚ)
      (ern : Nat → List ℚ) (all_indices : Nat → List Nat) (parameters : P)
      (s : List Nat) (rest : List (List Nat)) (missing_words : List Nat),
      ovE parameters (s.map ern) (all_indices 0)
          (missing_words.getD 0 0) = .error e →
      costE ovE ern all_indices parameters (s :: rest) missing_words =
        .error e) ∧
    (∀ (l : List Nat) (k : Nat) (ps : Nat → P),
      k < l.length →
      (∀ j, j < k → stepE (l.getD j 0) (ps j) = .ok (ps (j + 1))) →
      stepE (l.getD k 0) (ps k) = .error e →
      run_steps_count stepE l (ps 0) 0 = (ps k, k, some e)) := by
  constructor
  · intro ovE ern all_indices parameters s rest missing_words h
    exact costE_error_first ovE ern all_indices parameters s rest
      missing_words e h
  · intro l k ps hk hok herr
    have := run_steps_count_error stepE e l k 0 ps hk hok herr
    simpa using this

/-- Two or more queued state preparations make the `default.qubit` apply
loop raise `DeviceError` at the second one, whatever follows. -/
theorem applyOps_second_stateprep (embeddings : List (List ℚ))
    (ops : List Op) (h : 2 ≤ embeddings.length) :
    applyOps (encode_words_ops embeddings ++ ops) false =
      .error PyError.deviceError := by
  cases embeddings with
  | nil => simp at h
  | cons a t =>
    cases t with
    | nil => simp at h
    | cons b t2 => rfl

/-- A qnode call on `default.qubit` with at least two word registers to
prepare raises `DeviceError`. -/
theorem overlap_defaultqubitE_error {P : Type}
    (ansatz : P → List Nat → Nat → List Op)
    (value : P → List (List ℚ) → List Nat → Nat → ℚ) (p : P)
    (embeddings : List (List ℚ)) (indices : List Nat) (target_word : Nat)
    (h : 2 ≤ embeddings.length) :
    overlap_defaultqubitE ansatz value p embeddings indices target_word =
      .error PyError.deviceError := by
  rw [overlap_defaultqubitE, tape_executeE,
    applyOps_second_stateprep embeddings _ h]

/-- Claim C1: executing the committed training loop on the local
`default.qubit` device raises an unhandled `DeviceError` (`Operation
QubitStateVector cannot be used after other Operations have already been
applied`): the first sentence of the first batch already queues one state
preparation per word, so the forward pass of the very first Adam step
aborts, no parameter update ever completes, and the loop returns the
initial parameters with the error. -/
theorem committed_run_aborts_with_device_error {P : Type}
    (ansatz : P → List Nat → Nat → List Op)
    (value : P → List (List ℚ) → List Nat → Nat → ℚ)
    (ern : Nat → List ℚ) (all_indices : Nat → List Nat)
    (strunc : Nat → List Nat) (mwf : Nat → Nat) (upd : P → P)
    (nsent : Nat) (p0 : P)
    (hbatch : 1 ≤ N_batches nsent) (hwords : 2 ≤ (strunc 0).length) :
    committed_training_run ansatz value ern all_indices strunc mwf upd
        nsent p0 = (p0, 0, some PyError.deviceError) := by
  have hb0 : (batch_indices 0).map strunc =
      strunc 0 :: ([1, 2, 3, 4, 5, 6, 7, 8, 9].map strunc) := rfl
  have hcost : ∀ q : P,
      costE (overlap_defaultqubitE ansatz value) ern all_indices q
        ((batch_indices 0).map strunc) ((batch_indices 0).map mwf) =
        .error PyError.deviceError := by
    intro q
    rw [hb0]
    refine costE_error_first _ _ _ _ _ _ _ _ ?_
    refine overlap_defaultqubitE_error ansatz value q _ _ _ ?_
    simpa using hwords
  have hstep0 : opt_stepE (fun q =>
      costE (overlap_defaultqubitE ansatz value) ern all_indices q
        ((batch_indices 0).map strunc) ((batch_indices 0).map mwf))
      upd p0 = .error PyError.deviceError := by
    rw [opt_stepE, hcost p0]
  obtain ⟨m, hm⟩ : ∃ m, N_batches nsent = m + 1 :=
    ⟨N_batches nsent - 1, by omega⟩
  obtain ⟨rest, hsched⟩ : ∃ rest, step_schedule nsent = 0 :: rest := by
    refine ⟨List.map Nat.succ (List.range m) ++
      (0 :: List.map Nat.succ (List.range m)), ?_⟩
    rw [step_schedule_eq, hm, List.range_succ_eq_map]
    rfl
  rw [committed_training_run, training_loopE, hsched]
  exact run_steps_count_head_error _ 0 rest p0 0 PyError.deviceError hstep0

/-! ## Concrete witnesses -/

/-- Witness for the masking theorem at `num_words = 7`, abstract stream
`k ↦ k + 3`, sentence `i = 2`. -/
theorem masking_data_wellformed_witness :
    0 < 7 ∧ missing_word (fun k => k + 3) 7 2 < 7 ∧
    (all_indices_row (fun k => k + 3) 7 2).count (max_length 7) = 1 := by
  have h := masking_data_wellformed (fun k => k + 3) 7 2 (by decide)
  exact ⟨by decide, h.1, h.2.2.2⟩

/-- Witness for the normalization theorem: a one-dimensional vocabulary row
with original entry `3` and PCA output `2` normalizes to unit norm. -/
theorem embeddings_reduced_norm_rows_witness :
    0 < rowNorm ((fun _ : Nat => fun _ : Fin 1 => (3 : ℚ)) 0) ∧
    embeddings_reduced (fun _ : Nat => fun _ : Fin 1 => (3 : ℚ))
      (fun _ : Nat => fun _ : Fin (n_dim 0) => (2 : ℚ)) 0 ≠ 0 ∧
    rowNormR (embeddings_reduced_norm
      (fun _ : Nat => fun _ : Fin 1 => (3 : ℚ))
      (fun _ : Nat => fun _ : Fin (n_dim 0) => (2 : ℚ)) 0) = 1 := by
  have hpos : 0 < rowNorm ((fun _ : Nat => fun _ : Fin 1 => (3 : ℚ)) 0) := by
    rw [rowNorm_pos_iff]
    norm_num [sumSq, Fin.sum_univ_one]
  have hne : embeddings_reduced (fun _ : Nat => fun _ : Fin 1 => (3 : ℚ))
      (fun _ : Nat => fun _ : Fin (n_dim 0) => (2 : ℚ)) 0 ≠ 0 := by
    intro hz
    have h2 := congrFun hz ⟨0, by norm_num [n_dim]⟩
    simp [embeddings_reduced, sumSq, Fin.sum_univ_one] at h2
  exact ⟨hpos, hne,
    (@embeddings_reduced_norm_rows 1 0 (fun _ => fun _ => 3)
      (fun _ => fun _ => 2) 0).1 hpos hne⟩

/-- Witness for the query `TypeError` theorem: position `4` passes the
assertion against `num_words = 7` and the call still raises `TypeError`. -/
theorem query_always_raises_typeerror_witness :
    (4 : Nat) < 7 ∧
    @get_most_probable_word Unit (fun _ _ _ _ => 0) 7 (fun _ => []) [0, 1, 2]
      () [1, 2] 4 none = .error PyError.typeError :=
  ⟨by decide, @query_always_raises_typeerror Unit (fun _ _ _ _ => 0) 7
    (fun _ => []) [0, 1, 2] () [1, 2] 4 none (by decide)⟩

/-- Witness for the schedule theorem at `len(sentences_truncated) = 25`:
the loop performs `2 * (25 / 10) = 4` steps and batch `0` holds index `7`. -/
theorem training_loop_schedule_spec_witness :
    (run_steps_count (fun k (q : Nat) => (.ok (q + k) : Except PyError Nat))
        (step_schedule 25) 0 0).2 = (4, none) ∧
    7 ∈ batch_indices 0 := by
  have h := training_loop_schedule_spec (fun k (q : Nat) => q + k) 0 25
  refine ⟨?_, ?_⟩
  · have h1 := h.1
    norm_num [epochs, N_batches, batch_size] at h1
    exact h1
  · exact (h.2.2.2.2.1 0 7).2 (by decide)

/-- Witness for the propagation theorem: with steps that fail exactly at
batch key `1`, the run of `[5, 1, 7]` stops after one completed update,
keeping the once-updated parameters and surfacing the error. -/
theorem no_handler_error_propagates_witness :
    run_steps_count
      (fun k (p : Nat) => if k == 1 then (.error 0 : Except Nat Nat)
        else .ok (p + 1)) [5, 1, 7] 0 0 = (1, 1, some 0) := by
  have h := (no_handler_error_propagates
    (fun k (p : Nat) => if k == 1 then (.error 0 : Except Nat Nat)
      else .ok (p + 1)) 0).2 [5, 1, 7] 1 (fun j => j) (by decide)
    (fun j hj => by
      have hj0 : j = 0 := by omega
      subst hj0
      rfl)
    rfl
  exact h

/-- Witness for the committed-run theorem: ten two-word sentences make the
very first Adam step abort with `DeviceError` and zero completed updates. -/
theorem committed_run_aborts_witness :
    1 ≤ N_batches 10 ∧ 2 ≤ ((fun _ : Nat => [5, 6]) 0).length ∧
    @committed_training_run Unit (fun _ _ _ => []) (fun _ _ _ _ => 0)
      (fun _ => []) (fun _ => []) (fun _ => [5, 6]) (fun _ => 0) (fun p => p)
      10 () = ((), 0, some PyError.deviceError) :=
  ⟨by decide, by decide,
    @committed_run_aborts_with_device_error Unit (fun _ _ _ => [])
      (fun _ _ _ _ => 0) (fun _ => []) (fun _ => []) (fun _ => [5, 6])
      (fun _ => 0) (fun p => p) 10 () (by decide) (by decide)⟩

end QHack
